import Mathlib

set_option maxRecDepth 1000000

/-!
Verification of the GoVPNUI status/connection parsing core (main.go).

The Go code parses `swanctl` output with `regexp` patterns.  We embed each
regular expression as a small pattern value and run it with a backtracking
matcher whose preference order (leftmost start position, left alternative
first, greedy/lazy repetition) coincides with Go's leftmost-first submatch
semantics.  Every capture group appearing in main.go is a one-or-more
repetition of a character class, so a pattern is represented as a
pre-context, a captured class repetition, and a post-context (`Pat`), or
with two captured repetitions for the traffic-counter patterns (`Pat2`).

Strings are modelled as `List Char`; the Go functions under test are
transcribed line by line below their originals' names.
-/

/-- First-some choice on options (Go's switch cascade / regex alternation). -/
def oalt {A : Type} (a b : Option A) : Option A :=
  match a with
  | some v => some v
  | none => b

/-- The ASCII apostrophe, written via its code point. -/
def quoteChar : Char := Char.ofNat 39

/-- Go `(?i)` uses Unicode simple case folding.  For the ASCII-seeded
literals and classes of main.go the fold orbits are the ASCII case pairs
plus U+212A KELVIN SIGN (orbit of K/k) and U+017F LATIN SMALL LETTER LONG S
(orbit of S/s); no other non-ASCII character folds into ASCII.  `foldBase`
maps a character to its orbit representative. -/
def foldBase (c : Char) : Char :=
  if c = Char.ofNat 8490 then 'k'
  else if c = Char.ofNat 383 then 's'
  else c.toLower

/-- Case-insensitive character comparison under Go simple folding. -/
def lowerEq (a b : Char) : Bool := foldBase a = foldBase b

/-- Word character for `\b` in Go regexp: `[0-9A-Za-z_]`. -/
def isWordChar (c : Char) : Bool := c.isAlphanum || c = '_'

/-- `\b`: previous and next character differ in word-ness. -/
def boundary (prev : Option Char) (s : List Char) : Bool :=
  (match prev with | some c => isWordChar c | none => false)
    != (match s with | c :: _ => isWordChar c | [] => false)

/-- Regex fragments without capture groups. -/
inductive Re where
  | emp : Re
  | lit : List Char → Re
  | litCI : List Char → Re
  | cls : (Char → Bool) → Re
  | clsStar : (Char → Bool) → Re
  | clsStarLazy : (Char → Bool) → Re
  | clsPlus : (Char → Bool) → Re
  | seq : Re → Re → Re
  | alt : Re → Re → Re
  | opt : Re → Re
  | wb : Re
  | bol : Re
  | eos : Re

/-- Character comparison, case-insensitive when `ci` is set. -/
def charEq (ci : Bool) (a b : Char) : Bool := if ci then lowerEq a b else a = b

/-- Match a literal, threading the previous character for `\b`. -/
def runLit {A : Type} (ci : Bool) : List Char → Option Char → List Char →
    (Option Char → List Char → Option A) → Option A
  | [], prev, s, k => k prev s
  | c :: cs, _, s, k =>
    match s with
    | d :: t => if charEq ci c d then runLit ci cs d t k else none
    | [] => none

/-- Greedy class star: prefer consuming, backtracking into the continuation. -/
def runClsStarG {A : Type} (p : Char → Bool) : Option Char → List Char →
    (Option Char → List Char → Option A) → Option A
  | prev, [], k => k prev []
  | prev, c :: t, k =>
    if p c then oalt (runClsStarG p c t k) (k prev (c :: t)) else k prev (c :: t)

/-- Lazy class star: prefer the continuation, consuming only on failure. -/
def runClsStarL {A : Type} (p : Char → Bool) : Option Char → List Char →
    (Option Char → List Char → Option A) → Option A
  | prev, [], k => k prev []
  | prev, c :: t, k =>
    if p c then oalt (k prev (c :: t)) (runClsStarL p c t k) else k prev (c :: t)

/-- Backtracking matcher in continuation-passing style.  The continuation
receives the character preceding the rest of the input (for `\b`) and the
rest itself; the first success in preference order is returned. -/
def Re.run {A : Type} : Re → Option Char → List Char →
    (Option Char → List Char → Option A) → Option A
  | .emp, prev, s, k => k prev s
  | .lit l, prev, s, k => runLit false l prev s k
  | .litCI l, prev, s, k => runLit true l prev s k
  | .cls p, _, s, k =>
    match s with
    | c :: t => if p c then k (some c) t else none
    | [] => none
  | .clsStar p, prev, s, k => runClsStarG p prev s k
  | .clsStarLazy p, prev, s, k => runClsStarL p prev s k
  | .clsPlus p, _, s, k =>
    match s with
    | c :: t => if p c then runClsStarG p (some c) t k else none
    | [] => none
  | .seq a b, prev, s, k => a.run prev s (fun p1 s1 => b.run p1 s1 k)
  | .alt a b, prev, s, k => oalt (a.run prev s k) (b.run prev s k)
  | .opt a, prev, s, k => oalt (a.run prev s k) (k prev s)
  | .wb, prev, s, k => if boundary prev s then k prev s else none
  | .bol, prev, s, k => if prev = none || prev = some '\n' then k prev s else none
  | .eos, prev, s, k => if s.isEmpty then k prev s else none

/-- Greedy captured class repetition: `acc` is the text captured so far. -/
def runGrpStar {A : Type} (p : Char → Bool) (acc : List Char) : Option Char → List Char →
    (List Char → Option Char → List Char → Option A) → Option A
  | prev, [], k => k acc prev []
  | prev, c :: t, k =>
    if p c then oalt (runGrpStar p (acc ++ [c]) (some c) t k) (k acc prev (c :: t))
    else k acc prev (c :: t)

/-- A pattern with one capture group, always of the form `pre (grp+) post`. -/
structure Pat where
  pre : Re
  grp : Char → Bool
  post : Re

/-- Package a finished match: capture, preceding character, rest. -/
def capRes (cap : List Char) (p3 : Option Char) (s3 : List Char) :
    Option (List Char × Option Char × List Char) :=
  some (cap, p3, s3)

/-- After the captured group, match the post-context. -/
def postCont (pat : Pat) (cap : List Char) (p2 : Option Char) (s2 : List Char) :
    Option (List Char × Option Char × List Char) :=
  pat.post.run p2 s2 (capRes cap)

/-- After the pre-context, match the captured group then the post-context. -/
def grpCont (pat : Pat) : Option Char → List Char →
    Option (List Char × Option Char × List Char)
  | _, c :: t => if pat.grp c then runGrpStar pat.grp [c] (some c) t (postCont pat) else none
  | _, [] => none

/-- Match a `Pat` at the current position; on success return the capture,
the character preceding the unconsumed rest, and the rest. -/
def Pat.matchAt (pat : Pat) (prev : Option Char) (s : List Char) :
    Option (List Char × Option Char × List Char) :=
  pat.pre.run prev s (grpCont pat)

/-- Leftmost match: try each start position from left to right
(Go `FindStringSubmatch`). -/
def Pat.findFrom (pat : Pat) : Option Char → List Char →
    Option (List Char × Option Char × List Char)
  | prev, s =>
    oalt (pat.matchAt prev s)
      (match s with
       | c :: t => pat.findFrom (some c) t
       | [] => none)

/-- The capture of the leftmost match of `pat` in `line`, if any. -/
def Pat.find (pat : Pat) (line : List Char) : Option (List Char) :=
  (pat.findFrom none line).map (fun r => r.1)

/-- All non-overlapping leftmost matches (Go `FindAllStringSubmatch`);
the fuel is always sufficient because every match consumes a character. -/
def Pat.findAllFrom (pat : Pat) : Nat → Option Char → List Char → List (List Char)
  | 0, _, _ => []
  | fuel + 1, prev, s =>
    match pat.findFrom prev s with
    | some (cap, p2, rest) => cap :: pat.findAllFrom fuel p2 rest
    | none => []

/-- Captures of all matches of `pat` in `text`. -/
def Pat.findAll (pat : Pat) (text : List Char) : List (List Char) :=
  pat.findAllFrom (text.length + 1) none text

/-- A pattern with two capture groups: `pre (g1+) mid (g2+) post`
(the traffic-counter patterns). -/
structure Pat2 where
  pre : Re
  g1 : Char → Bool
  mid : Re
  g2 : Char → Bool
  post : Re

/-- Match a `Pat2` at the current position, returning both captures. -/
def Pat2.matchAt (pat : Pat2) (prev : Option Char) (s : List Char) :
    Option (List Char × List Char) :=
  pat.pre.run prev s (fun _ s1 =>
    match s1 with
    | c :: t =>
      if pat.g1 c then
        runGrpStar pat.g1 [c] (some c) t (fun cap1 p2 s2 =>
          pat.mid.run p2 s2 (fun _ s3 =>
            match s3 with
            | d :: u =>
              if pat.g2 d then
                runGrpStar pat.g2 [d] (some d) u (fun cap2 p4 s4 =>
                  pat.post.run p4 s4 (fun _ _ => some (cap1, cap2)))
              else none
            | [] => none))
      else none
    | [] => none)

/-- Leftmost two-capture match. -/
def Pat2.findFrom (pat : Pat2) : Option Char → List Char → Option (List Char × List Char)
  | prev, s =>
    oalt (pat.matchAt prev s)
      (match s with
       | c :: t => pat.findFrom (some c) t
       | [] => none)

/-- The two captures of the leftmost match of `pat` in `line`, if any. -/
def Pat2.find2 (pat : Pat2) (line : List Char) : Option (List Char × List Char) :=
  pat.findFrom none line

/-! ## Character classes of main.go -/

/-- `[A-Za-z0-9._:-]`, the connection-name token class (case-sensitive
patterns). -/
def tokCls (c : Char) : Bool :=
  c.isUpper || c.isLower || c.isDigit || c = '.' || c = '_' || c = ':' || c = '-'

/-- `[A-Za-z0-9._:-]` under Go `(?i)`: the simple-fold closure also admits
U+212A (folds with K/k) and U+017F (folds with S/s). -/
def tokClsCI (c : Char) : Bool :=
  tokCls c || c = Char.ofNat 8490 || c = Char.ofNat 383

/-- Go regexp `\s` = `[\t\n\f\r ]`. -/
def wsCls (c : Char) : Bool :=
  c = '\t' || c = '\n' || c = '\x0C' || c = '\r' || c = ' '

/-- `\d`. -/
def digCls (c : Char) : Bool := c.isDigit

/-- `[\d,]`. -/
def digCommaCls (c : Char) : Bool := c.isDigit || c = ','

/-- `[0-9A-Fa-fx]` (hex SPI characters). -/
def hexxCls (c : Char) : Bool :=
  c.isDigit || ('A' ≤ c && c ≤ 'F') || ('a' ≤ c && c ≤ 'f') || c = 'x'

/-- `[^']`. -/
def notQuoteCls (c : Char) : Bool := c != quoteChar

/-- `.` (any character but newline). -/
def dotCls (c : Char) : Bool := c != '\n'

/-- Sequence a list of fragments. -/
def rSeq (l : List Re) : Re := l.foldr Re.seq Re.emp

/-- Case-sensitive literal fragment. -/
def rStr (s : String) : Re := Re.lit s.data

/-- Case-insensitive literal fragment. -/
def rStrCI (s : String) : Re := Re.litCI s.data

/-- `\s*` -/
def wsStar : Re := Re.clsStar wsCls

/-- `\s+` -/
def wsPlus : Re := Re.clsPlus wsCls

/-- `\d+` -/
def digPlus : Re := Re.clsPlus digCls

/-- `(?:child\s+)?`, case-insensitive. -/
def optChildCI : Re := Re.opt (rSeq [rStrCI "child", wsPlus])

/-- `(?:child\s+)?`, case-sensitive. -/
def optChild : Re := Re.opt (rSeq [rStr "child", wsPlus])

/-! ## Patterns of parseActiveChildrenFromListSas (all `(?i)`) -/

/-- `(?i)^\s*(?:child\s+)?([A-Za-z0-9._:-]+)\{\d+\}:` -/
def reActiveBrace : Pat :=
  { pre := rSeq [Re.bol, wsStar, optChildCI], grp := tokClsCI,
    post := rSeq [rStr "\x7b", digPlus, rStr "\x7d", rStr ":"] }

/-- `(?i)^\s*CHILD_SA\s+([A-Za-z0-9._:-]+)\{\d+\}\b` -/
def reActiveChildSa : Pat :=
  { pre := rSeq [Re.bol, wsStar, rStrCI "CHILD_SA", wsPlus], grp := tokClsCI,
    post := rSeq [rStr "\x7b", digPlus, rStr "\x7d", Re.wb] }

/-- `(?i)^\s*child\s+'([^']+)'` -/
def reActiveQuoted : Pat :=
  { pre := rSeq [Re.bol, wsStar, rStrCI "child", wsPlus, Re.lit [quoteChar]],
    grp := notQuoteCls, post := Re.lit [quoteChar] }

/-- `(?i)^\s*(?:child\s+)?([A-Za-z0-9._:-]+):\s+INSTALLED\b` -/
def reActiveInstalled : Pat :=
  { pre := rSeq [Re.bol, wsStar, optChildCI], grp := tokClsCI,
    post := rSeq [rStr ":", wsPlus, rStrCI "INSTALLED", Re.wb] }

/-- `(?i)\binstalled\s+CHILD_SA\s+'([^']+)'` (unanchored) -/
def reActiveInstalledLog : Pat :=
  { pre := rSeq [Re.wb, rStrCI "installed", wsPlus, rStrCI "CHILD_SA", wsPlus,
                 Re.lit [quoteChar]],
    grp := notQuoteCls, post := Re.lit [quoteChar] }

/-- `(?i)^\s*([A-Za-z0-9._:-]+):\s*#\d+,\s.*\bESP:` -/
def reActiveChildHashESP : Pat :=
  { pre := rSeq [Re.bol, wsStar], grp := tokClsCI,
    post := rSeq [rStr ":", wsStar, rStr "#", digPlus, rStr ",", Re.cls wsCls,
                  Re.clsStar dotCls, Re.wb, rStrCI "ESP:"] }

/-- `(?i)^\s*(?:child\s+)?([A-Za-z0-9._:-]+):\s*(?:TUNNEL|ESP|ROUTED|ESTABLISHED)\b` -/
def reActiveTolerantHeader : Pat :=
  { pre := rSeq [Re.bol, wsStar, optChildCI], grp := tokClsCI,
    post := rSeq [rStr ":", wsStar,
                  Re.alt (rStrCI "TUNNEL")
                    (Re.alt (rStrCI "ESP") (Re.alt (rStrCI "ROUTED") (rStrCI "ESTABLISHED"))),
                  Re.wb] }

/-! ## Patterns of parseStatusToStats (case-sensitive) -/

/-- `^\s*(?:child\s+)?([A-Za-z0-9._:-]+)\{\d+\}:?` -/
def reHeaderBrace : Pat :=
  { pre := rSeq [Re.bol, wsStar, optChild], grp := tokCls,
    post := rSeq [rStr "\x7b", digPlus, rStr "\x7d", Re.opt (rStr ":")] }

/-- `^\s*CHILD_SA\s+([A-Za-z0-9._:-]+)\{\d+\}\b` -/
def reHeaderChildSA : Pat :=
  { pre := rSeq [Re.bol, wsStar, rStr "CHILD_SA", wsPlus], grp := tokCls,
    post := rSeq [rStr "\x7b", digPlus, rStr "\x7d", Re.wb] }

/-- `^\s*child\s+'([^']+)'` -/
def reHeaderQuoted : Pat :=
  { pre := rSeq [Re.bol, wsStar, rStr "child", wsPlus, Re.lit [quoteChar]],
    grp := notQuoteCls, post := Re.lit [quoteChar] }

/-- `^\s*([A-Za-z0-9._:-]+):\s*#\d+,\s.*\bESP:` -/
def reHeaderHashESP : Pat :=
  { pre := rSeq [Re.bol, wsStar], grp := tokCls,
    post := rSeq [rStr ":", wsStar, rStr "#", digPlus, rStr ",", Re.cls wsCls,
                  Re.clsStar dotCls, Re.wb, rStr "ESP:"] }

/-! ## Traffic counter patterns of parseStatusToStats -/

/-- `^\s*in:\s*([\d,]+)\s*bytes,\s*([\d,]+)\s*packets` -/
def reInPrimary : Pat2 :=
  { pre := rSeq [Re.bol, wsStar, rStr "in:", wsStar], g1 := digCommaCls,
    mid := rSeq [wsStar, rStr "bytes,", wsStar], g2 := digCommaCls,
    post := rSeq [wsStar, rStr "packets"] }

/-- `^\s*out:\s*([\d,]+)\s*bytes,\s*([\d,]+)\s*packets` -/
def reOutPrimary : Pat2 :=
  { pre := rSeq [Re.bol, wsStar, rStr "out:", wsStar], g1 := digCommaCls,
    mid := rSeq [wsStar, rStr "bytes,", wsStar], g2 := digCommaCls,
    post := rSeq [wsStar, rStr "packets"] }

/-- `^\s*in:.*?\bbytes\s+([\d,]+).*?\bpackets\s+([\d,]+)` -/
def reInAlt : Pat2 :=
  { pre := rSeq [Re.bol, wsStar, rStr "in:", Re.clsStarLazy dotCls, Re.wb, rStr "bytes", wsPlus],
    g1 := digCommaCls,
    mid := rSeq [Re.clsStarLazy dotCls, Re.wb, rStr "packets", wsPlus],
    g2 := digCommaCls, post := Re.emp }

/-- `^\s*out:.*?\bbytes\s+([\d,]+).*?\bpackets\s+([\d,]+)` -/
def reOutAlt : Pat2 :=
  { pre := rSeq [Re.bol, wsStar, rStr "out:", Re.clsStarLazy dotCls, Re.wb, rStr "bytes", wsPlus],
    g1 := digCommaCls,
    mid := rSeq [Re.clsStarLazy dotCls, Re.wb, rStr "packets", wsPlus],
    g2 := digCommaCls, post := Re.emp }

/-- `^\s*in\s+[0-9A-Fa-fx]+,\s*([\d,]+)\s*bytes,\s*([\d,]+)\s*packets` -/
def reInSPI : Pat2 :=
  { pre := rSeq [Re.bol, wsStar, rStr "in", wsPlus, Re.clsPlus hexxCls, rStr ",", wsStar],
    g1 := digCommaCls,
    mid := rSeq [wsStar, rStr "bytes,", wsStar], g2 := digCommaCls,
    post := rSeq [wsStar, rStr "packets"] }

/-- `^\s*out\s+[0-9A-Fa-fx]+,\s*([\d,]+)\s*bytes,\s*([\d,]+)\s*packets` -/
def reOutSPI : Pat2 :=
  { pre := rSeq [Re.bol, wsStar, rStr "out", wsPlus, Re.clsPlus hexxCls, rStr ",", wsStar],
    g1 := digCommaCls,
    mid := rSeq [wsStar, rStr "bytes,", wsStar], g2 := digCommaCls,
    post := rSeq [wsStar, rStr "packets"] }

/-- `^\s*in\b.*?\bbytes\s+([\d,]+).*?\bpackets\s+([\d,]+)` -/
def reInNoColon : Pat2 :=
  { pre := rSeq [Re.bol, wsStar, rStr "in", Re.wb, Re.clsStarLazy dotCls, Re.wb,
                 rStr "bytes", wsPlus],
    g1 := digCommaCls,
    mid := rSeq [Re.clsStarLazy dotCls, Re.wb, rStr "packets", wsPlus],
    g2 := digCommaCls, post := Re.emp }

/-- `^\s*out\b.*?\bbytes\s+([\d,]+).*?\bpackets\s+([\d,]+)` -/
def reOutNoColon : Pat2 :=
  { pre := rSeq [Re.bol, wsStar, rStr "out", Re.wb, Re.clsStarLazy dotCls, Re.wb,
                 rStr "bytes", wsPlus],
    g1 := digCommaCls,
    mid := rSeq [Re.clsStarLazy dotCls, Re.wb, rStr "packets", wsPlus],
    g2 := digCommaCls, post := Re.emp }

/-! ## Patterns of parseChildrenFromListConns -/

/-- `(?m)^\s+([A-Za-z0-9._:-]+):\s+TUNNEL\b` (matched over the whole text) -/
def reChildTunnel : Pat :=
  { pre := rSeq [Re.bol, wsPlus], grp := tokCls,
    post := rSeq [rStr ":", wsPlus, rStr "TUNNEL", Re.wb] }

/-- `(?i)\bchildren:\s*(.+)$` (applied per line; `$` is end of line text) -/
def reChildren : Pat :=
  { pre := rSeq [Re.wb, rStrCI "children:", wsStar], grp := dotCls, post := Re.eos }

/-- `(?i)^\s*child\s+([A-Za-z0-9._:-]+)\b` (applied per line) -/
def reChildLine : Pat :=
  { pre := rSeq [Re.bol, wsStar, rStrCI "child", wsPlus], grp := tokClsCI, post := Re.wb }

/-! ## Patterns of parseChildrenFromListSas (all matched over the whole text) -/

/-- `(?m)^\s*(?:child\s+)?([A-Za-z0-9._:-]+)\{\d+\}:?` -/
def reSasBrace : Pat :=
  { pre := rSeq [Re.bol, wsStar, optChild], grp := tokCls,
    post := rSeq [rStr "\x7b", digPlus, rStr "\x7d", Re.opt (rStr ":")] }

/-- `(?m)^\s*CHILD_SA\s+([A-Za-z0-9._:-]+)\{\d+\}\b` -/
def reSasChildSa : Pat :=
  { pre := rSeq [Re.bol, wsStar, rStr "CHILD_SA", wsPlus], grp := tokCls,
    post := rSeq [rStr "\x7b", digPlus, rStr "\x7d", Re.wb] }

/-- `(?m)^\s*child\s+'([^']+)'` -/
def reSasQuoted : Pat :=
  { pre := rSeq [Re.bol, wsStar, rStr "child", wsPlus, Re.lit [quoteChar]],
    grp := notQuoteCls, post := Re.lit [quoteChar] }

/-! ## String utilities used by the handlers -/

/-- Build a `String` back from a capture. -/
def strOfChars (l : List Char) : String := String.mk l

/-- `strings.Split(text, "\n")`. -/
def splitNL : List Char → List (List Char)
  | [] => [[]]
  | c :: t =>
    if c = '\n' then [] :: splitNL t
    else
      match splitNL t with
      | l :: ls => (c :: l) :: ls
      | [] => [[c]]

/-- The lines of a text, as in every parser of main.go. -/
def linesOf (text : String) : List (List Char) := splitNL text.data

/-- `unicode.IsSpace` (strings.TrimSpace): the Unicode White_Space set —
TAB..CR, SPACE, NEL, NBSP, OGHAM SPACE MARK, U+2000–U+200A, LINE and
PARAGRAPH SEPARATOR, NARROW NBSP, MMSP, IDEOGRAPHIC SPACE. -/
def goSpace (c : Char) : Bool :=
  c.toNat = 32 || c.toNat = 9 || c.toNat = 10 || c.toNat = 11 || c.toNat = 12 ||
    c.toNat = 13 || c.toNat = 133 || c.toNat = 160 || c.toNat = 5760 ||
    (8192 ≤ c.toNat && c.toNat ≤ 8202) || c.toNat = 8232 || c.toNat = 8233 ||
    c.toNat = 8239 || c.toNat = 8287 || c.toNat = 12288

/-- `strings.TrimSpace` on a character list. -/
def trimChars (l : List Char) : List Char :=
  ((List.dropWhile goSpace (List.dropWhile goSpace l).reverse)).reverse

/-- `strings.TrimSpace`. -/
def trimStr (s : String) : String := strOfChars (trimChars s.data)

/-- Lexicographic comparison of character lists (sort.Strings order). -/
def ltCharList : List Char → List Char → Bool
  | [], [] => false
  | [], _ :: _ => true
  | _ :: _, [] => false
  | a :: as, b :: bs => if a < b then true else if b < a then false else ltCharList as bs

/-- Lexicographic comparison of strings. -/
def ltStr (a b : String) : Bool := ltCharList a.data b.data

/-- Insert into a sorted duplicate-free list, dropping duplicates. -/
def insStr (x : String) : List String → List String
  | [] => [x]
  | y :: ys => if ltStr x y then x :: y :: ys else if x = y then y :: ys else y :: insStr x ys

/-- Deduplicate and sort ascending (the Go `map` + `sort.Strings` idiom). -/
def sortedDedup (l : List String) : List String := l.foldr insStr []

/-- Split on runs of `[,\s]+` (the `children:` list splitter). -/
def splitSep : List Char → List (List Char)
  | [] => [[]]
  | c :: t =>
    if c = ',' || wsCls c then [] :: splitSep t
    else
      match splitSep t with
      | l :: ls => (c :: l) :: ls
      | [] => [[c]]

/-! ## parseChildrenFromListConns / parseChildrenFromListSas / childrenJSON -/

/-- The tokens contributed by one `children:` line. -/
def childrenLineTokens (line : List Char) : List String :=
  match reChildren.find line with
  | some cap =>
    ((splitSep cap).map (fun tok => strOfChars (trimChars tok))).filter (fun tok => tok != "")
  | none => []

/-- Go `parseChildrenFromListConns`: union of the three configured-connection
matchers, in source order. -/
def parseChildrenFromListConns (text : String) : List String :=
  ((reChildTunnel.findAll text.data).map strOfChars)
    ++ ((linesOf text).foldr (fun line acc => childrenLineTokens line ++ acc) [])
    ++ ((linesOf text).foldr (fun line acc =>
          match reChildLine.find line with
          | some cap => strOfChars cap :: acc
          | none => acc) [])

/-- Go `parseChildrenFromListSas`: the three fallback matchers over the
whole text, in source order. -/
def parseChildrenFromListSas (text : String) : List String :=
  ((reSasBrace.findAll text.data).map strOfChars)
    ++ ((reSasChildSa.findAll text.data).map strOfChars)
    ++ ((reSasQuoted.findAll text.data).map strOfChars)

/-- The name list of `childrenJSONHandler` before dedup/sort: primary text
from `--list-conns`, falling back to `--list-sas` when it yields nothing. -/
def childrenNamesOf (conns sas : String) : List String :=
  if parseChildrenFromListConns conns = [] then parseChildrenFromListSas sas
  else parseChildrenFromListConns conns

/-- The pure core of `childrenJSONHandler`: primary text from
`--list-conns`, fallback to `--list-sas`, then trim, dedup, sort. -/
def childrenJSON (conns sas : String) : List String :=
  sortedDedup (((childrenNamesOf conns sas).map trimStr).filter (fun n => n != ""))

/-! ## parseActiveChildrenFromListSas -/

/-- The name contributed by one line of `--list-sas` output in
`parseActiveChildrenFromListSas`: the Go `switch` tries the seven patterns
in source order and keeps the first match only. -/
def activeCaptureOf (line : List Char) : Option String :=
  match reActiveBrace.find line with
  | some cap => some (strOfChars cap)
  | none =>
    match reActiveChildSa.find line with
    | some cap => some (strOfChars cap)
    | none =>
      match reActiveQuoted.find line with
      | some cap => some (strOfChars cap)
      | none =>
        match reActiveInstalled.find line with
        | some cap => some (strOfChars cap)
        | none =>
          match reActiveInstalledLog.find line with
          | some cap => some (strOfChars cap)
          | none =>
            match reActiveChildHashESP.find line with
            | some cap => some (strOfChars cap)
            | none =>
              match reActiveTolerantHeader.find line with
              | some cap => some (strOfChars cap)
              | none => none

/-- Go `parseActiveChildrenFromListSas`: set insertion of the per-line
captures, emitted sorted. -/
def parseActiveChildrenFromListSas (text : String) : List String :=
  sortedDedup ((linesOf text).filterMap activeCaptureOf)

/-! ## parseStatusToStats -/

/-- Go `ChildStats`. -/
structure ChildStats where
  Active : Bool
  InBytes : Int
  OutBytes : Int
  InPkts : Int
  OutPkts : Int
deriving DecidableEq, Repr

/-- The zero value a Go map read yields for an absent key. -/
def zeroStats : ChildStats :=
  { Active := false, InBytes := 0, OutBytes := 0, InPkts := 0, OutPkts := 0 }

/-- Association-list model of the Go `map[string]ChildStats`. -/
def lookupStat : List (String × ChildStats) → String → Option ChildStats
  | [], _ => none
  | (a, v) :: t, k => if a = k then some v else lookupStat t k

/-- `stats[k]` with Go's zero-value default. -/
def lookupStatD (m : List (String × ChildStats)) (k : String) : ChildStats :=
  (lookupStat m k).getD zeroStats

/-- `stats[k] = v`. -/
def setStat : List (String × ChildStats) → String → ChildStats → List (String × ChildStats)
  | [], k, v => [(k, v)]
  | (a, w) :: t, k, v => if a = k then (k, v) :: t else (a, w) :: setStat t k v

/-- `strings.ReplaceAll(s, ",", "")`. -/
def stripCommas (s : List Char) : List Char := s.filter (fun c => c != ',')

/-- Wrap to a signed 64-bit value (Go `int64` overflow semantics). -/
def wrap64 (x : Int) : Int := (x + 2 ^ 63) % 2 ^ 64 - 2 ^ 63

/-- The accumulator loop of Go `parseInt64`. -/
def parseInt64Go : List Char → Int → Int
  | [], n => n
  | c :: t, n =>
    if c < '0' ∨ '9' < c then n
    else parseInt64Go t (wrap64 (n * 10 + ((c.toNat : Int) - 48)))

/-- Go `parseInt64`: value of the longest digit prefix, stopping at the
first non-digit, zero on empty input. -/
def parseInt64 (s : List Char) : Int := parseInt64Go s 0

/-- The state threaded through the aggregation pass. -/
structure StatusState where
  current : String
  stats : List (String × ChildStats)

/-- First-match-wins over the four header patterns, in source order:
hash-ESP, brace, CHILD_SA, quoted. -/
def headerCaptureOf (line : List Char) : Option String :=
  match reHeaderHashESP.find line with
  | some cap => some (strOfChars cap)
  | none =>
    match reHeaderBrace.find line with
    | some cap => some (strOfChars cap)
    | none =>
      match reHeaderChildSA.find line with
      | some cap => some (strOfChars cap)
      | none =>
        match reHeaderQuoted.find line with
        | some cap => some (strOfChars cap)
        | none => none

/-- Overwrite the inbound counters (one traffic line, `in` direction). -/
def withIn (st : ChildStats) (b p : List Char) : ChildStats :=
  { st with InBytes := parseInt64 (stripCommas b), InPkts := parseInt64 (stripCommas p) }

/-- Overwrite the outbound counters (one traffic line, `out` direction). -/
def withOut (st : ChildStats) (b p : List Char) : ChildStats :=
  { st with OutBytes := parseInt64 (stripCommas b), OutPkts := parseInt64 (stripCommas p) }

/-- First-match-wins over the eight counter patterns, in source order:
SPI in/out, primary in/out, alternate in/out, loose in/out.  Returns the
record update the matching line performs. -/
def counterActionOf (line : List Char) : Option (ChildStats → ChildStats) :=
  match reInSPI.find2 line with
  | some bp => some (fun st => withIn st bp.1 bp.2)
  | none =>
    match reOutSPI.find2 line with
    | some bp => some (fun st => withOut st bp.1 bp.2)
    | none =>
      match reInPrimary.find2 line with
      | some bp => some (fun st => withIn st bp.1 bp.2)
      | none =>
        match reOutPrimary.find2 line with
        | some bp => some (fun st => withOut st bp.1 bp.2)
        | none =>
          match reInAlt.find2 line with
          | some bp => some (fun st => withIn st bp.1 bp.2)
          | none =>
            match reOutAlt.find2 line with
            | some bp => some (fun st => withOut st bp.1 bp.2)
            | none =>
              match reInNoColon.find2 line with
              | some bp => some (fun st => withIn st bp.1 bp.2)
              | none =>
                match reOutNoColon.find2 line with
                | some bp => some (fun st => withOut st bp.1 bp.2)
                | none => none

/-- One iteration of the Go loop in `parseStatusToStats`: a header line
resets the current connection and marks it active; otherwise, with a
current connection, a counter line overwrites that direction's counters. -/
def statusStep (st : StatusState) (line : List Char) : StatusState :=
  match headerCaptureOf line with
  | some n => { current := n, stats := setStat st.stats n { lookupStatD st.stats n with Active := true } }
  | none =>
    if st.current = "" then st
    else
      match counterActionOf line with
      | some f => { current := st.current, stats := setStat st.stats st.current (f (lookupStatD st.stats st.current)) }
      | none => st

/-- Go `parseStatusToStats`. -/
def parseStatusToStats (text : String) : List (String × ChildStats) :=
  ((linesOf text).foldl statusStep { current := "", stats := [] }).stats

/-- The token pattern `[A-Za-z0-9._:-]+` of the spec's ConnectionName. -/
def isTokenStr (n : String) : Bool := !n.data.isEmpty && n.data.all tokCls

/-- The token pattern under Go `(?i)` folding: a nonempty string over the
fold closure of `[A-Za-z0-9._:-]`. -/
def isTokenStrCI (n : String) : Bool := !n.data.isEmpty && n.data.all tokClsCI

/-- No counter line of the trace is attributed to the name `n`: walking the
lines with the current connection `cur`, every line processed while the
current connection is `n` and which is not a header must fail all eight
counter patterns.  This is the "no following counter lines" condition of
the status-aggregator invariant. -/
def noCounterFor (n : String) : String → List (List Char) → Bool
  | _, [] => true
  | cur, l :: ls =>
    match headerCaptureOf l with
    | some m => noCounterFor n m ls
    | none =>
      if cur = n then (counterActionOf l).isNone && noCounterFor n cur ls
      else noCounterFor n cur ls

/-- Modelled from the spec: the Integer Normalizer's contract, "the longest
valid numeric prefix is returned" — the value of the longest digit prefix,
zero when there is none. -/
def specDigitPrefixVal : List Char → Nat → Nat
  | [], acc => acc
  | c :: t, acc => if c.isDigit then specDigitPrefixVal t (acc * 10 + (c.toNat - 48)) else acc

/-! ## Generic properties of the matcher

Every successful run of a fragment produces its value through the
continuation, and a captured group is a nonempty list of characters of its
class.  These facts underpin the shape theorems about emitted names. -/

theorem oalt_eq_some {A : Type} {a b : Option A} {v : A} (h : oalt a b = some v) :
    a = some v ∨ b = some v := by
  cases a with
  | some w => exact Or.inl (by simpa [oalt] using h)
  | none => exact Or.inr (by simpa [oalt] using h)

theorem runLit_some {A : Type} {ci : Bool} {l : List Char} :
    ∀ {prev : Option Char} {s : List Char} {k : Option Char → List Char → Option A} {v : A},
      runLit ci l prev s k = some v → ∃ p2 s2, k p2 s2 = some v := by
  induction l with
  | nil => intro prev s k v h; exact ⟨prev, s, by simpa [runLit] using h⟩
  | cons c cs ih =>
    intro prev s k v h
    cases s with
    | nil => simp [runLit] at h
    | cons d t =>
      simp only [runLit] at h
      split at h
      · exact ih h
      · simp at h

theorem runClsStarG_some {A : Type} {p : Char → Bool} {s : List Char} :
    ∀ {prev : Option Char} {k : Option Char → List Char → Option A} {v : A},
      runClsStarG p prev s k = some v → ∃ p2 s2, k p2 s2 = some v := by
  induction s with
  | nil => intro prev k v h; exact ⟨prev, [], by simpa [runClsStarG] using h⟩
  | cons c t ih =>
    intro prev k v h
    simp only [runClsStarG] at h
    split at h
    · rcases oalt_eq_some h with h1 | h1
      · exact ih h1
      · exact ⟨prev, c :: t, h1⟩
    · exact ⟨prev, c :: t, h⟩

theorem runClsStarL_some {A : Type} {p : Char → Bool} {s : List Char} :
    ∀ {prev : Option Char} {k : Option Char → List Char → Option A} {v : A},
      runClsStarL p prev s k = some v → ∃ p2 s2, k p2 s2 = some v := by
  induction s with
  | nil => intro prev k v h; exact ⟨prev, [], by simpa [runClsStarL] using h⟩
  | cons c t ih =>
    intro prev k v h
    simp only [runClsStarL] at h
    split at h
    · rcases oalt_eq_some h with h1 | h1
      · exact ⟨prev, c :: t, h1⟩
      · exact ih h1
    · exact ⟨prev, c :: t, h⟩

theorem Re.run_some {A : Type} {r : Re} :
    ∀ {prev : Option Char} {s : List Char} {k : Option Char → List Char → Option A} {v : A},
      r.run prev s k = some v → ∃ p2 s2, k p2 s2 = some v := by
  induction r with
  | emp => intro prev s k v h; exact ⟨prev, s, h⟩
  | lit l => intro prev s k v h; exact runLit_some h
  | litCI l => intro prev s k v h; exact runLit_some h
  | cls p =>
    intro prev s k v h
    cases s with
    | nil => simp [Re.run] at h
    | cons c t =>
      simp only [Re.run] at h
      split at h
      · exact ⟨some c, t, h⟩
      · simp at h
  | clsStar p => intro prev s k v h; exact runClsStarG_some h
  | clsStarLazy p => intro prev s k v h; exact runClsStarL_some h
  | clsPlus p =>
    intro prev s k v h
    cases s with
    | nil => simp [Re.run] at h
    | cons c t =>
      simp only [Re.run] at h
      split at h
      · exact runClsStarG_some h
      · simp at h
  | seq a b iha ihb =>
    intro prev s k v h
    simp only [Re.run] at h
    obtain ⟨p1, s1, h1⟩ := iha h
    exact ihb h1
  | alt a b iha ihb =>
    intro prev s k v h
    simp only [Re.run] at h
    rcases oalt_eq_some h with h1 | h1
    · exact iha h1
    · exact ihb h1
  | opt a iha =>
    intro prev s k v h
    simp only [Re.run] at h
    rcases oalt_eq_some h with h1 | h1
    · exact iha h1
    · exact ⟨prev, s, h1⟩
  | wb =>
    intro prev s k v h
    simp only [Re.run] at h
    split at h
    · exact ⟨prev, s, h⟩
    · simp at h
  | bol =>
    intro prev s k v h
    simp only [Re.run] at h
    split at h
    · exact ⟨prev, s, h⟩
    · simp at h
  | eos =>
    intro prev s k v h
    simp only [Re.run] at h
    split at h
    · exact ⟨prev, s, h⟩
    · simp at h

theorem runGrpStar_some {A : Type} {p : Char → Bool} {s : List Char} :
    ∀ {acc : List Char} {prev : Option Char}
      {k : List Char → Option Char → List Char → Option A} {v : A},
      runGrpStar p acc prev s k = some v →
      ∃ acc2 p2 s2, k acc2 p2 s2 = some v ∧ (∀ c ∈ acc2, c ∈ acc ∨ p c = true) ∧
        (acc ≠ [] → acc2 ≠ []) := by
  induction s with
  | nil =>
    intro acc prev k v h
    exact ⟨acc, prev, [], by simpa [runGrpStar] using h, fun c hc => Or.inl hc, fun hne => hne⟩
  | cons c t ih =>
    intro acc prev k v h
    simp only [runGrpStar] at h
    split at h
    case isTrue hp =>
      rcases oalt_eq_some h with h1 | h1
      · obtain ⟨acc2, p2, s2, hk, hmem, hne⟩ := ih h1
        refine ⟨acc2, p2, s2, hk, ?_, ?_⟩
        · intro x hx
          rcases hmem x hx with hx2 | hx2
          · rcases List.mem_append.mp hx2 with hx3 | hx3
            · exact Or.inl hx3
            · simp only [List.mem_singleton] at hx3
              subst hx3
              exact Or.inr hp
          · exact Or.inr hx2
        · intro _
          exact hne (by simp)
      · exact ⟨acc, prev, c :: t, h1, fun x hx => Or.inl hx, fun hne => hne⟩
    case isFalse hp =>
      exact ⟨acc, prev, c :: t, h, fun x hx => Or.inl hx, fun hne => hne⟩

theorem Pat.matchAt_some {pat : Pat} {prev : Option Char} {s : List Char}
    {out : List Char × Option Char × List Char} (h : pat.matchAt prev s = some out) :
    out.1 ≠ [] ∧ ∀ c ∈ out.1, pat.grp c = true := by
  unfold Pat.matchAt at h
  obtain ⟨p1, s1, h1⟩ := Re.run_some h
  cases s1 with
  | nil => simp [grpCont] at h1
  | cons c t =>
    simp only [grpCont] at h1
    split at h1
    case isTrue hp =>
      obtain ⟨acc2, p2, s2, hk, hmem, hne⟩ := runGrpStar_some h1
      unfold postCont at hk
      obtain ⟨p3, s3, h3⟩ := Re.run_some hk
      unfold capRes at h3
      simp only [Option.some.injEq] at h3
      subst h3
      refine ⟨hne (by simp), ?_⟩
      intro x hx
      rcases hmem x hx with hx2 | hx2
      · simp only [List.mem_singleton] at hx2
        subst hx2
        exact hp
      · exact hx2
    case isFalse hp => simp at h1

theorem Pat.findFrom_some {pat : Pat} {s : List Char} :
    ∀ {prev : Option Char} {out : List Char × Option Char × List Char},
      pat.findFrom prev s = some out →
      out.1 ≠ [] ∧ ∀ c ∈ out.1, pat.grp c = true := by
  induction s with
  | nil =>
    intro prev out h
    simp only [Pat.findFrom] at h
    rcases oalt_eq_some h with h1 | h1
    · exact Pat.matchAt_some h1
    · simp at h1
  | cons c t ih =>
    intro prev out h
    simp only [Pat.findFrom] at h
    rcases oalt_eq_some h with h1 | h1
    · exact Pat.matchAt_some h1
    · exact ih h1

theorem Pat.find_props {pat : Pat} {line cap : List Char} (h : pat.find line = some cap) :
    cap ≠ [] ∧ ∀ c ∈ cap, pat.grp c = true := by
  unfold Pat.find at h
  obtain ⟨out, hout, hcap⟩ := Option.map_eq_some'.mp h
  subst hcap
  exact Pat.findFrom_some hout

/-! ## Association-list lemmas (the Go map model) -/

theorem lookupStat_setStat_self (m : List (String × ChildStats)) (k : String) (v : ChildStats) :
    lookupStat (setStat m k v) k = some v := by
  induction m with
  | nil => simp [setStat, lookupStat]
  | cons hd t ih =>
    obtain ⟨a, w⟩ := hd
    by_cases hak : a = k
    · simp [setStat, lookupStat, hak]
    · simp [setStat, lookupStat, hak, ih]

theorem lookupStat_setStat_ne (m : List (String × ChildStats)) (k k2 : String) (v : ChildStats)
    (h : k2 ≠ k) : lookupStat (setStat m k v) k2 = lookupStat m k2 := by
  induction m with
  | nil =>
    have hkk : ¬ k = k2 := fun he => h he.symm
    simp [setStat, lookupStat, hkk]
  | cons hd t ih =>
    obtain ⟨a, w⟩ := hd
    by_cases hak : a = k
    · have hkk : ¬ k = k2 := fun he => h he.symm
      have hak2 : ¬ a = k2 := fun he => h (he.symm.trans hak)
      simp [setStat, lookupStat, hak, hkk, hak2]
    · by_cases hak2 : a = k2
      · simp [setStat, lookupStat, hak, hak2, h]
      · simp [setStat, lookupStat, hak, hak2, ih]

theorem mem_keys_setStat (m : List (String × ChildStats)) (k : String) (v : ChildStats)
    (a : String) : a ∈ (setStat m k v).map Prod.fst ↔ a ∈ m.map Prod.fst ∨ a = k := by
  induction m with
  | nil => simp [setStat]
  | cons hd t ih =>
    obtain ⟨b, w⟩ := hd
    by_cases hbk : b = k
    · subst hbk
      simp [setStat]
      tauto
    · simp [setStat, hbk, ih]
      tauto

theorem mem_keys_iff_lookup (m : List (String × ChildStats)) (a : String) :
    a ∈ m.map Prod.fst ↔ ∃ r, lookupStat m a = some r := by
  induction m with
  | nil => simp [lookupStat]
  | cons hd t ih =>
    obtain ⟨b, w⟩ := hd
    by_cases hba : b = a
    · subst hba
      simp [lookupStat]
    · simp [lookupStat, hba, ih, Ne.symm hba]

/-! ## Dedup-and-sort lemmas -/

theorem mem_insStr (x : String) (l : List String) (a : String) :
    a ∈ insStr x l ↔ a = x ∨ a ∈ l := by
  induction l with
  | nil => simp [insStr]
  | cons y ys ih =>
    by_cases h1 : ltStr x y = true
    · simp [insStr, h1]
    · by_cases h2 : x = y
      · subst h2
        simp [insStr, h1]
      · simp [insStr, h1, h2, ih]
        tauto

theorem mem_sortedDedup (l : List String) (a : String) : a ∈ sortedDedup l ↔ a ∈ l := by
  induction l with
  | nil => simp [sortedDedup]
  | cons x xs ih =>
    simp only [sortedDedup, List.foldr] at ih ⊢
    rw [mem_insStr, ih]
    simp

/-! ## TrimSpace lemmas -/

theorem dropWhile_head_not {p : Char → Bool} (l : List Char) :
    List.dropWhile p l = [] ∨
      ∃ c t, List.dropWhile p l = c :: t ∧ p c = false := by
  induction l with
  | nil => exact Or.inl rfl
  | cons c t ih =>
    by_cases h : p c = true
    · simpa [List.dropWhile_cons, h] using ih
    · refine Or.inr ⟨c, t, ?_, by simpa using h⟩
      simp [List.dropWhile_cons, h]

theorem dropWhile_self_of_head {p : Char → Bool} {c : Char} {t : List Char} (h : p c = false) :
    List.dropWhile p (c :: t) = c :: t := by
  simp [List.dropWhile_cons, h]

theorem dropWhile_idem {p : Char → Bool} (l : List Char) :
    List.dropWhile p (List.dropWhile p l) = List.dropWhile p l := by
  rcases dropWhile_head_not (p := p) l with h | ⟨c, t, h, hc⟩
  · rw [h]
    rfl
  · rw [h]
    exact dropWhile_self_of_head hc

theorem trimChars_prefix (l : List Char) :
    ∃ m, List.dropWhile goSpace l =
      (List.dropWhile goSpace (List.dropWhile goSpace l).reverse).reverse ++ m := by
  refine ⟨(List.takeWhile goSpace (List.dropWhile goSpace l).reverse).reverse, ?_⟩
  have h := List.takeWhile_append_dropWhile (p := goSpace)
    (l := (List.dropWhile goSpace l).reverse)
  calc List.dropWhile goSpace l
      = (List.dropWhile goSpace l).reverse.reverse := by rw [List.reverse_reverse]
    _ = (List.takeWhile goSpace (List.dropWhile goSpace l).reverse
          ++ List.dropWhile goSpace (List.dropWhile goSpace l).reverse).reverse := by rw [h]
    _ = _ := by rw [List.reverse_append]

theorem dropWhile_trimChars (l : List Char) :
    List.dropWhile goSpace (trimChars l) = trimChars l := by
  unfold trimChars
  rcases dropWhile_head_not (p := goSpace) l with h0 | ⟨c, t, h0, hc⟩
  · rw [h0]
    rfl
  · obtain ⟨m, hm⟩ := trimChars_prefix l
    rw [h0] at hm
    rw [h0]
    cases hb : (List.dropWhile goSpace (c :: t).reverse).reverse with
    | nil => rfl
    | cons x b2 =>
      rw [hb] at hm
      have h2 : c :: t = x :: (b2 ++ m) := by simpa using hm
      injection h2 with hcx htl
      subst hcx
      exact dropWhile_self_of_head hc

theorem trimChars_idem (l : List Char) : trimChars (trimChars l) = trimChars l := by
  have h1 : List.dropWhile goSpace (trimChars l) = trimChars l := dropWhile_trimChars l
  have h2 : (trimChars l).reverse = List.dropWhile goSpace (List.dropWhile goSpace l).reverse := by
    unfold trimChars
    rw [List.reverse_reverse]
  calc trimChars (trimChars l)
      = (List.dropWhile goSpace (List.dropWhile goSpace (trimChars l)).reverse).reverse := rfl
    _ = (List.dropWhile goSpace (trimChars l).reverse).reverse := by rw [h1]
    _ = (List.dropWhile goSpace (List.dropWhile goSpace (List.dropWhile goSpace l).reverse)).reverse := by
          rw [h2]
    _ = (List.dropWhile goSpace (List.dropWhile goSpace l).reverse).reverse := by
          rw [dropWhile_idem]
    _ = trimChars l := rfl

theorem trimStr_idem (s : String) : trimStr (trimStr s) = trimStr s := by
  show strOfChars (trimChars (strOfChars (trimChars s.data)).data) = trimStr s
  have hdata : (strOfChars (trimChars s.data)).data = trimChars s.data := rfl
  rw [hdata, trimChars_idem]
  rfl

/-! ## Integer Normalizer lemmas -/

theorem specDigitPrefixVal_ge (s : List Char) :
    ∀ acc : Nat, acc ≤ specDigitPrefixVal s acc := by
  induction s with
  | nil => intro acc; simp [specDigitPrefixVal]
  | cons c t ih =>
    intro acc
    by_cases h : c.isDigit = true
    · calc acc ≤ acc * 10 + (c.toNat - 48) := by omega
        _ ≤ specDigitPrefixVal t (acc * 10 + (c.toNat - 48)) := ih _
        _ = specDigitPrefixVal (c :: t) acc := by simp [specDigitPrefixVal, h]
    · simp [specDigitPrefixVal, h]

theorem wrap64_id (x : Int) (h0 : 0 ≤ x) (h1 : x < 2 ^ 63) : wrap64 x = x := by
  unfold wrap64
  rw [Int.emod_eq_of_lt (by omega) (by omega)]
  omega

theorem digit_cond (c : Char) : (c < '0' ∨ '9' < c) ↔ c.isDigit = false := by
  have h48 : ('0' : Char).toNat = 48 := by decide
  have h57 : ('9' : Char).toNat = 57 := by decide
  constructor
  · intro h
    by_contra hd
    rw [Bool.not_eq_false] at hd
    simp only [Char.isDigit] at hd
    rw [Bool.and_eq_true, decide_eq_true_eq, decide_eq_true_eq] at hd
    rcases h with h | h
    · have h2 : c.toNat < 48 := h
      have h3 : (48 : UInt32) ≤ c.val := hd.1
      have h4 : (48 : Nat) ≤ c.toNat := h3
      omega
    · have h2 : 57 < c.toNat := h
      have h3 : c.val ≤ (57 : UInt32) := hd.2
      have h4 : c.toNat ≤ 57 := h3
      omega
  · intro h
    simp only [Char.isDigit] at h
    rw [Bool.and_eq_false_iff, decide_eq_false_iff_not, decide_eq_false_iff_not] at h
    rcases h with h | h
    · left
      have h2 : ¬ (48 : Nat) ≤ c.toNat := fun hle => h hle
      show c.toNat < 48
      omega
    · right
      have h2 : ¬ c.toNat ≤ (57 : Nat) := fun hle => h hle
      show 57 < c.toNat
      omega

theorem parseInt64Go_spec (s : List Char) :
    ∀ acc : Nat, specDigitPrefixVal s acc < 2 ^ 63 →
      parseInt64Go s (acc : Int) = specDigitPrefixVal s acc := by
  induction s with
  | nil => intro acc h; simp [parseInt64Go, specDigitPrefixVal]
  | cons c t ih =>
    intro acc h
    by_cases hd : c.isDigit = true
    · have hcond : ¬ (c < '0' ∨ '9' < c) := by
        intro hor
        rw [digit_cond, hd] at hor
        exact Bool.noConfusion hor
      have hspec : specDigitPrefixVal (c :: t) acc
          = specDigitPrefixVal t (acc * 10 + (c.toNat - 48)) := by
        simp [specDigitPrefixVal, hd]
      rw [hspec] at h ⊢
      have h48 : (48 : Nat) ≤ c.toNat := by
        simp only [Char.isDigit] at hd
        rw [Bool.and_eq_true, decide_eq_true_eq, decide_eq_true_eq] at hd
        exact hd.1
      have hle : acc * 10 + (c.toNat - 48) ≤ specDigitPrefixVal t (acc * 10 + (c.toNat - 48)) :=
        specDigitPrefixVal_ge t _
      have hcast : (acc : Int) * 10 + ((c.toNat : Int) - 48)
          = ((acc * 10 + (c.toNat - 48) : Nat) : Int) := by
        push_cast [h48]
        ring
      have hwrap : wrap64 ((acc : Int) * 10 + ((c.toNat : Int) - 48))
          = ((acc * 10 + (c.toNat - 48) : Nat) : Int) := by
        rw [hcast]
        refine wrap64_id _ (Int.natCast_nonneg _) ?_
        exact_mod_cast lt_of_le_of_lt hle h
      have hparse : parseInt64Go (c :: t) (acc : Int)
          = parseInt64Go t (wrap64 ((acc : Int) * 10 + ((c.toNat : Int) - 48))) := by
        simp [parseInt64Go, hcond]
      rw [hparse, hwrap]
      exact ih _ h
    · have hd2 : c.isDigit = false := Bool.not_eq_true _ ▸ hd
      have hcond : c < '0' ∨ '9' < c := (digit_cond c).mpr hd2
      simp [parseInt64Go, specDigitPrefixVal, hcond, hd2]

theorem parseInt64_spec (s : List Char) (h : specDigitPrefixVal s 0 < 2 ^ 63) :
    parseInt64 s = specDigitPrefixVal s 0 := by
  have h2 := parseInt64Go_spec s 0 h
  simpa [parseInt64] using h2

/-! ## State-machine lemmas for parseStatusToStats -/

theorem counterActionOf_active {line : List Char} {f : ChildStats → ChildStats}
    (h : counterActionOf line = some f) : ∀ st, (f st).Active = st.Active := by
  unfold counterActionOf at h
  repeat' split at h
  all_goals first
    | exact Option.noConfusion h
    | (injection h with h2; subst h2; intro st; rfl)

theorem statusStep_current (st : StatusState) (line : List Char) :
    (statusStep st line).current = (headerCaptureOf line).getD st.current := by
  unfold statusStep
  cases h : headerCaptureOf line with
  | some n => simp
  | none =>
    simp only [Option.getD_none]
    split
    · rfl
    · cases h2 : counterActionOf line with
      | some f => rfl
      | none => rfl

theorem statusStep_stats_header (st : StatusState) (line : List Char) (n : String)
    (h : headerCaptureOf line = some n) :
    (statusStep st line).stats = setStat st.stats n { lookupStatD st.stats n with Active := true } := by
  unfold statusStep
  rw [h]

/-- The `current`-in-keys invariant carried through the pass. -/
def Inv2 (st : StatusState) : Prop :=
  st.current = "" ∨ st.current ∈ st.stats.map Prod.fst

theorem statusStep_keys (st : StatusState) (line : List Char) (a : String) (hinv : Inv2 st) :
    a ∈ (statusStep st line).stats.map Prod.fst ↔
      a ∈ st.stats.map Prod.fst ∨ headerCaptureOf line = some a := by
  cases h : headerCaptureOf line with
  | some n =>
    rw [statusStep_stats_header st line n h, mem_keys_setStat]
    simp only [Option.some.injEq]
    constructor
    · rintro (hm | he)
      · exact Or.inl hm
      · exact Or.inr he.symm
    · rintro (hm | he)
      · exact Or.inl hm
      · exact Or.inr he.symm
  | none =>
    unfold statusStep
    rw [h]
    simp only [Option.some.injEq]
    split
    · simp
    case isFalse hcur =>
      cases h2 : counterActionOf line with
      | some f =>
        simp only
        rw [mem_keys_setStat]
        rcases hinv with hc | hc
        · exact absurd hc hcur
        · constructor
          · rintro (hm | he)
            · exact Or.inl hm
            · subst he
              exact Or.inl hc
          · rintro (hm | he)
            · exact Or.inl hm
            · exact absurd he (by simp)
      | none => simp

theorem statusStep_inv2 (st : StatusState) (line : List Char) (hinv : Inv2 st) :
    Inv2 (statusStep st line) := by
  cases h : headerCaptureOf line with
  | some n =>
    right
    rw [statusStep_current, h]
    rw [statusStep_stats_header st line n h, mem_keys_setStat]
    simp
  | none =>
    unfold Inv2
    rw [statusStep_current, h]
    simp only [Option.getD_none]
    rw [statusStep_keys st line st.current hinv, h]
    rcases hinv with hc | hc
    · exact Or.inl hc
    · exact Or.inr (Or.inl hc)

theorem foldl_statusStep_keys (lines : List (List Char)) :
    ∀ (st : StatusState) (a : String), Inv2 st →
      (a ∈ ((lines.foldl statusStep st).stats.map Prod.fst) ↔
        a ∈ st.stats.map Prod.fst ∨ ∃ l, l ∈ lines ∧ headerCaptureOf l = some a) := by
  induction lines with
  | nil => intro st a _; simp
  | cons l ls ih =>
    intro st a hinv
    simp only [List.foldl_cons]
    rw [ih (statusStep st l) a (statusStep_inv2 st l hinv)]
    rw [statusStep_keys st l a hinv]
    simp only [List.mem_cons]
    constructor
    · rintro ((hm | hh) | ⟨l2, hl2, hc⟩)
      · exact Or.inl hm
      · exact Or.inr ⟨l, Or.inl rfl, hh⟩
      · exact Or.inr ⟨l2, Or.inr hl2, hc⟩
    · rintro (hm | ⟨l2, (hl2 | hl2), hc⟩)
      · exact Or.inl (Or.inl hm)
      · subst hl2
        exact Or.inl (Or.inr hc)
      · exact Or.inr ⟨l2, hl2, hc⟩

/-- Key-set characterization of the status mapping: a record exists exactly
for the names captured by some header line. -/
theorem statusKeys_iff (text : String) (n : String) :
    n ∈ (parseStatusToStats text).map Prod.fst ↔
      ∃ l, l ∈ linesOf text ∧ headerCaptureOf l = some n := by
  unfold parseStatusToStats
  rw [foldl_statusStep_keys (linesOf text) _ n (Or.inl rfl)]
  simp [lookupStat]

theorem statusStep_stats_skip (st : StatusState) (line : List Char)
    (hh : headerCaptureOf line = none) (hcur : st.current = "") :
    (statusStep st line).stats = st.stats := by
  unfold statusStep
  rw [hh]
  simp [hcur]

theorem statusStep_stats_counter (st : StatusState) (line : List Char) (f : ChildStats → ChildStats)
    (hh : headerCaptureOf line = none) (hcur : ¬ st.current = "")
    (hc : counterActionOf line = some f) :
    (statusStep st line).stats = setStat st.stats st.current (f (lookupStatD st.stats st.current)) := by
  unfold statusStep
  rw [hh]
  simp [hcur, hc]

theorem statusStep_stats_nocounter (st : StatusState) (line : List Char)
    (hh : headerCaptureOf line = none) (hcur : ¬ st.current = "")
    (hc : counterActionOf line = none) :
    (statusStep st line).stats = st.stats := by
  unfold statusStep
  rw [hh]
  simp [hcur, hc]

theorem statusStep_active (st : StatusState) (line : List Char) (hinv : Inv2 st)
    (hact : ∀ k r, lookupStat st.stats k = some r → r.Active = true) :
    ∀ k r, lookupStat (statusStep st line).stats k = some r → r.Active = true := by
  intro k r hr
  cases h : headerCaptureOf line with
  | some n =>
    rw [statusStep_stats_header st line n h] at hr
    by_cases hkn : k = n
    · subst hkn
      rw [lookupStat_setStat_self] at hr
      injection hr with hr2
      subst hr2
      rfl
    · rw [lookupStat_setStat_ne _ _ _ _ hkn] at hr
      exact hact k r hr
  | none =>
    by_cases hcur : st.current = ""
    · rw [statusStep_stats_skip st line h hcur] at hr
      exact hact k r hr
    · cases h2 : counterActionOf line with
      | none =>
        rw [statusStep_stats_nocounter st line h hcur h2] at hr
        exact hact k r hr
      | some f =>
        rw [statusStep_stats_counter st line f h hcur h2] at hr
        by_cases hkc : k = st.current
        · subst hkc
          rw [lookupStat_setStat_self] at hr
          injection hr with hr2
          subst hr2
          rcases hinv with hc | hc
          · exact absurd hc hcur
          · obtain ⟨r0, hr0⟩ := (mem_keys_iff_lookup _ _).mp hc
            rw [counterActionOf_active h2]
            unfold lookupStatD
            rw [hr0]
            exact hact _ r0 hr0
        · rw [lookupStat_setStat_ne _ _ _ _ hkc] at hr
          exact hact k r hr

theorem foldl_statusStep_active (lines : List (List Char)) :
    ∀ (st : StatusState), Inv2 st →
      (∀ k r, lookupStat st.stats k = some r → r.Active = true) →
      ∀ k r, lookupStat ((lines.foldl statusStep st).stats) k = some r → r.Active = true := by
  induction lines with
  | nil => intro st _ hact k r hr; exact hact k r hr
  | cons l ls ih =>
    intro st hinv hact k r hr
    simp only [List.foldl_cons] at hr
    exact ih (statusStep st l) (statusStep_inv2 st l hinv) (statusStep_active st l hinv hact) k r hr

theorem foldl_statusStep_zero (lines : List (List Char)) :
    ∀ (st : StatusState) (n : String),
      (lookupStat st.stats n = none ∨
        lookupStat st.stats n = some { zeroStats with Active := true }) →
      noCounterFor n st.current lines = true →
      (lookupStat ((lines.foldl statusStep st).stats) n = none ∨
        lookupStat ((lines.foldl statusStep st).stats) n = some { zeroStats with Active := true }) := by
  induction lines with
  | nil => intro st n h _; exact h
  | cons l ls ih =>
    intro st n h hnc
    simp only [List.foldl_cons]
    simp only [noCounterFor] at hnc
    cases hh : headerCaptureOf l with
    | some m =>
      have hnc2 : noCounterFor n m ls = true := by
        rw [hh] at hnc
        exact hnc
      refine ih (statusStep st l) n ?_ ?_
      · by_cases hmn : m = n
        · subst hmn
          right
          rw [statusStep_stats_header st l m hh, lookupStat_setStat_self]
          rcases h with h0 | h0
          · unfold lookupStatD
            rw [h0]
            rfl
          · unfold lookupStatD
            rw [h0]
            rfl
        · rw [statusStep_stats_header st l m hh,
            lookupStat_setStat_ne _ _ _ _ (fun he => hmn he.symm)]
          exact h
      · rw [statusStep_current, hh]
        exact hnc2
    | none =>
      have hnc2 : (if st.current = n then
            (counterActionOf l).isNone && noCounterFor n st.current ls
          else noCounterFor n st.current ls) = true := by
        rw [hh] at hnc
        exact hnc
      have hcur2 : (statusStep st l).current = st.current := by
        rw [statusStep_current, hh]
        rfl
      by_cases hcn : st.current = n
      · rw [if_pos hcn, Bool.and_eq_true] at hnc2
        have hca : counterActionOf l = none := Option.isNone_iff_eq_none.mp hnc2.1
        have hst : (statusStep st l).stats = st.stats := by
          by_cases hcur : st.current = ""
          · exact statusStep_stats_skip st l hh hcur
          · exact statusStep_stats_nocounter st l hh hcur hca
        refine ih (statusStep st l) n ?_ ?_
        · rw [hst]
          exact h
        · rw [hcur2]
          exact hnc2.2
      · rw [if_neg hcn] at hnc2
        have hlook : lookupStat (statusStep st l).stats n = lookupStat st.stats n := by
          by_cases hcur : st.current = ""
          · rw [statusStep_stats_skip st l hh hcur]
          · cases hca : counterActionOf l with
            | none => rw [statusStep_stats_nocounter st l hh hcur hca]
            | some f =>
              rw [statusStep_stats_counter st l f hh hcur hca]
              exact lookupStat_setStat_ne _ _ _ _ (fun he => hcn he.symm)
        refine ih (statusStep st l) n ?_ ?_
        · rw [hlook]
          exact h
        · rw [hcur2]
          exact hnc2

/-! ## Membership and cascade characterizations -/

theorem mem_parseActive (text : String) (n : String) :
    n ∈ parseActiveChildrenFromListSas text ↔
      ∃ l, l ∈ linesOf text ∧ activeCaptureOf l = some n := by
  unfold parseActiveChildrenFromListSas
  rw [mem_sortedDedup]
  exact List.mem_filterMap

theorem isTokenStr_of_find {pat : Pat} {line cap : List Char} (hgrp : pat.grp = tokCls)
    (h : pat.find line = some cap) : isTokenStr (strOfChars cap) = true := by
  obtain ⟨hne, hall⟩ := Pat.find_props h
  unfold isTokenStr
  have hdata : (strOfChars cap).data = cap := rfl
  rw [hdata, Bool.and_eq_true]
  constructor
  · cases cap with
    | nil => exact absurd rfl hne
    | cons c t => rfl
  · rw [List.all_eq_true]
    intro c hc
    have h2 := hall c hc
    rw [hgrp] at h2
    exact h2

theorem isTokenStrCI_of_find {pat : Pat} {line cap : List Char} (hgrp : pat.grp = tokClsCI)
    (h : pat.find line = some cap) : isTokenStrCI (strOfChars cap) = true := by
  obtain ⟨hne, hall⟩ := Pat.find_props h
  unfold isTokenStrCI
  have hdata : (strOfChars cap).data = cap := rfl
  rw [hdata, Bool.and_eq_true]
  constructor
  · cases cap with
    | nil => exact absurd rfl hne
    | cons c t => rfl
  · rw [List.all_eq_true]
    intro c hc
    have h2 := hall c hc
    rw [hgrp] at h2
    exact h2

theorem activeCaptureOf_chain (line : List Char) :
    activeCaptureOf line =
      oalt ((reActiveBrace.find line).map strOfChars)
        (oalt ((reActiveChildSa.find line).map strOfChars)
          (oalt ((reActiveQuoted.find line).map strOfChars)
            (oalt ((reActiveInstalled.find line).map strOfChars)
              (oalt ((reActiveInstalledLog.find line).map strOfChars)
                (oalt ((reActiveChildHashESP.find line).map strOfChars)
                  ((reActiveTolerantHeader.find line).map strOfChars)))))) := by
  unfold activeCaptureOf
  cases reActiveBrace.find line with
  | some c => simp [oalt]
  | none =>
    cases reActiveChildSa.find line with
    | some c => simp [oalt]
    | none =>
      cases reActiveQuoted.find line with
      | some c => simp [oalt]
      | none =>
        cases reActiveInstalled.find line with
        | some c => simp [oalt]
        | none =>
          cases reActiveInstalledLog.find line with
          | some c => simp [oalt]
          | none =>
            cases reActiveChildHashESP.find line with
            | some c => simp [oalt]
            | none =>
              cases reActiveTolerantHeader.find line with
              | some c => simp [oalt]
              | none => simp [oalt]

theorem headerCaptureOf_chain (line : List Char) :
    headerCaptureOf line =
      oalt ((reHeaderHashESP.find line).map strOfChars)
        (oalt ((reHeaderBrace.find line).map strOfChars)
          (oalt ((reHeaderChildSA.find line).map strOfChars)
            ((reHeaderQuoted.find line).map strOfChars))) := by
  unfold headerCaptureOf
  cases reHeaderHashESP.find line with
  | some c => simp [oalt]
  | none =>
    cases reHeaderBrace.find line with
    | some c => simp [oalt]
    | none =>
      cases reHeaderChildSA.find line with
      | some c => simp [oalt]
      | none =>
        cases reHeaderQuoted.find line with
        | some c => simp [oalt]
        | none => simp [oalt]

theorem childrenJSON_mem_trim {conns sas n} (h : n ∈ childrenJSON conns sas) :
    trimStr n = n ∧ n ≠ "" := by
  unfold childrenJSON at h
  rw [mem_sortedDedup, List.mem_filter] at h
  obtain ⟨hmem, hne⟩ := h
  rw [List.mem_map] at hmem
  obtain ⟨m, hm, hn⟩ := hmem
  subst hn
  refine ⟨trimStr_idem m, ?_⟩
  simpa using hne

/-! ## Claim theorems -/

/-- Claim C1, counterexample: on the text `tun1: INSTALLED` the active
extractor emits `tun1` (via the INSTALLED pattern) but the status
aggregator, whose four header patterns do not include an INSTALLED form,
produces no record at all — so the two sets are not equal. -/
theorem c1_counterexample :
    "tun1" ∈ parseActiveChildrenFromListSas "tun1: INSTALLED" ∧
      "tun1" ∉ (parseStatusToStats "tun1: INSTALLED").map Prod.fst := by
  constructor
  · decide
  · decide

/-- Claim C1 (amended): the active-connection list and the status-mapping
key set are set-equal for every text whose lines each yield the same
first-match capture under the seven active patterns and under the four
status header patterns; in general (e.g. a `name: INSTALLED` line) the two
differ. -/
theorem c1_conditional_set_equality (text : String)
    (h : ∀ l, l ∈ linesOf text → activeCaptureOf l = headerCaptureOf l) (n : String) :
    n ∈ parseActiveChildrenFromListSas text ↔
      n ∈ (parseStatusToStats text).map Prod.fst := by
  rw [mem_parseActive, statusKeys_iff]
  constructor
  · rintro ⟨l, hl, hc⟩
    refine ⟨l, hl, ?_⟩
    rw [← h l hl]
    exact hc
  · rintro ⟨l, hl, hc⟩
    refine ⟨l, hl, ?_⟩
    rw [h l hl]
    exact hc

/-- Claim C1, witness for the amended statement at a hash-free brace text. -/
theorem c1_witness :
    (∀ l, l ∈ linesOf "x\x7b1\x7d:" → activeCaptureOf l = headerCaptureOf l) ∧
      ("x" ∈ parseActiveChildrenFromListSas "x\x7b1\x7d:" ↔
        "x" ∈ (parseStatusToStats "x\x7b1\x7d:").map Prod.fst) :=
  ⟨by decide, c1_conditional_set_equality "x\x7b1\x7d:" (by decide) "x"⟩

/-- Claim C2, counterexample: the line `bar{1}: installed CHILD_SA 'foo'`
matches both the brace pattern (capturing `bar`) and the installed-log
pattern (capturing `foo`), yet the extractor's switch keeps only the first
match, so `foo` is not emitted — the patterns are not tried independently. -/
theorem c2_counterexample :
    reActiveBrace.find ("bar\x7b1\x7d: installed CHILD_SA " ++ String.singleton quoteChar
        ++ "foo" ++ String.singleton quoteChar).data = some ("bar".data) ∧
    reActiveInstalledLog.find ("bar\x7b1\x7d: installed CHILD_SA " ++ String.singleton quoteChar
        ++ "foo" ++ String.singleton quoteChar).data = some ("foo".data) ∧
    parseActiveChildrenFromListSas ("bar\x7b1\x7d: installed CHILD_SA " ++ String.singleton quoteChar
        ++ "foo" ++ String.singleton quoteChar) = ["bar"] ∧
    "foo" ∉ parseActiveChildrenFromListSas ("bar\x7b1\x7d: installed CHILD_SA "
        ++ String.singleton quoteChar ++ "foo" ++ String.singleton quoteChar) := by
  refine ⟨by decide, by decide, by decide, by decide⟩

/-- Claim C2 (amended): each line contributes at most one name, namely the
capture of the first matching pattern in the source order brace, CHILD_SA,
quoted, INSTALLED, installed-log, hash-ESP, tolerant header; the emitted
list is exactly the sorted set of these per-line first-match captures. -/
theorem c2_first_match_wins :
    (∀ (text : String) (n : String),
        n ∈ parseActiveChildrenFromListSas text ↔
          ∃ l, l ∈ linesOf text ∧ activeCaptureOf l = some n)
    ∧ ∀ line : List Char,
        activeCaptureOf line =
          oalt ((reActiveBrace.find line).map strOfChars)
            (oalt ((reActiveChildSa.find line).map strOfChars)
              (oalt ((reActiveQuoted.find line).map strOfChars)
                (oalt ((reActiveInstalled.find line).map strOfChars)
                  (oalt ((reActiveInstalledLog.find line).map strOfChars)
                    (oalt ((reActiveChildHashESP.find line).map strOfChars)
                      ((reActiveTolerantHeader.find line).map strOfChars)))))) :=
  ⟨mem_parseActive, activeCaptureOf_chain⟩

/-- Claim C3, counterexample: with an empty primary text, the fallback over
`tun1: INSTALLED` returns nothing — the fallback parser has only the three
brace/CHILD_SA/quoted patterns, not the seven active-association patterns,
which would have captured `tun1` (as the active extractor shows). -/
theorem c3_counterexample :
    parseChildrenFromListConns "" = [] ∧
      childrenJSON "" "tun1: INSTALLED" = [] ∧
      parseActiveChildrenFromListSas "tun1: INSTALLED" = ["tun1"] := by
  refine ⟨by decide, by decide, by decide⟩

/-- Claim C3 (amended): when the three primary matchers yield no names, the
listing is computed entirely from the secondary text — but with the three
case-sensitive fallback patterns of parseChildrenFromListSas (optional-colon
brace header, CHILD_SA brace header, quoted child), not §4.4's seven — with
captures trimmed, deduplicated and sorted ascending. -/
theorem c3_fallback_three_patterns (conns sas : String)
    (h : parseChildrenFromListConns conns = []) :
    childrenJSON conns sas =
      sortedDedup (((parseChildrenFromListSas sas).map trimStr).filter (fun n => n != "")) := by
  unfold childrenJSON childrenNamesOf
  rw [if_pos h]

/-- Claim C3, witness for the amended statement. -/
theorem c3_witness :
    parseChildrenFromListConns "" = [] ∧
      childrenJSON "" "net\x7b1\x7d:" =
        sortedDedup (((parseChildrenFromListSas "net\x7b1\x7d:").map trimStr).filter (fun n => n != "")) :=
  ⟨by decide, c3_fallback_three_patterns "" "net\x7b1\x7d:" (by decide)⟩

/-- Claim C4, counterexample: the quoted-child pattern captures `[^']+`, so
`child 'a b'` emits the name `a b`, which contains a space and does not
match the token pattern `[A-Za-z0-9._:-]+`. -/
theorem c4_counterexample :
    ("a b" ∈ parseActiveChildrenFromListSas ("child " ++ String.singleton quoteChar
        ++ "a b" ++ String.singleton quoteChar)) ∧
      isTokenStr "a b" = false := by
  refine ⟨by decide, by decide⟩

/-- Claim C4 (amended): every name emitted by the active extractor either
is a nonempty string over the case-folded token class (the `(?i)` patterns
fold `[A-Za-z0-9._:-]` to also admit U+212A and U+017F) or is the capture
of a quoted-child pattern on some input line (and may then contain any
non-quote characters, including spaces); status keys, produced by the
case-sensitive header patterns, match the unfolded token pattern or come
from the quoted header; the configured-connections listing does guarantee
trimmed nonempty output. -/
theorem c4_name_shape :
    (∀ (text : String) (n : String), n ∈ parseActiveChildrenFromListSas text →
        isTokenStrCI n = true ∨
          ∃ l, l ∈ linesOf text ∧
            (reActiveQuoted.find l = some n.data ∨ reActiveInstalledLog.find l = some n.data))
    ∧ (∀ (text : String) (n : String), n ∈ (parseStatusToStats text).map Prod.fst →
        isTokenStr n = true ∨ ∃ l, l ∈ linesOf text ∧ reHeaderQuoted.find l = some n.data)
    ∧ (∀ (conns sas : String) (n : String), n ∈ childrenJSON conns sas →
        trimStr n = n ∧ n ≠ "") := by
  refine ⟨?_, ?_, ?_⟩
  · intro text n h
    rw [mem_parseActive] at h
    obtain ⟨l, hl, hc⟩ := h
    rw [activeCaptureOf_chain] at hc
    rcases oalt_eq_some hc with h1 | hc
    · obtain ⟨cap, hf, hn⟩ := Option.map_eq_some'.mp h1
      subst hn
      exact Or.inl (isTokenStrCI_of_find rfl hf)
    rcases oalt_eq_some hc with h1 | hc
    · obtain ⟨cap, hf, hn⟩ := Option.map_eq_some'.mp h1
      subst hn
      exact Or.inl (isTokenStrCI_of_find rfl hf)
    rcases oalt_eq_some hc with h1 | hc
    · obtain ⟨cap, hf, hn⟩ := Option.map_eq_some'.mp h1
      subst hn
      exact Or.inr ⟨l, hl, Or.inl hf⟩
    rcases oalt_eq_some hc with h1 | hc
    · obtain ⟨cap, hf, hn⟩ := Option.map_eq_some'.mp h1
      subst hn
      exact Or.inl (isTokenStrCI_of_find rfl hf)
    rcases oalt_eq_some hc with h1 | hc
    · obtain ⟨cap, hf, hn⟩ := Option.map_eq_some'.mp h1
      subst hn
      exact Or.inr ⟨l, hl, Or.inr hf⟩
    rcases oalt_eq_some hc with h1 | hc
    · obtain ⟨cap, hf, hn⟩ := Option.map_eq_some'.mp h1
      subst hn
      exact Or.inl (isTokenStrCI_of_find rfl hf)
    · obtain ⟨cap, hf, hn⟩ := Option.map_eq_some'.mp hc
      subst hn
      exact Or.inl (isTokenStrCI_of_find rfl hf)
  · intro text n h
    rw [statusKeys_iff] at h
    obtain ⟨l, hl, hc⟩ := h
    rw [headerCaptureOf_chain] at hc
    rcases oalt_eq_some hc with h1 | hc
    · obtain ⟨cap, hf, hn⟩ := Option.map_eq_some'.mp h1
      subst hn
      exact Or.inl (isTokenStr_of_find rfl hf)
    rcases oalt_eq_some hc with h1 | hc
    · obtain ⟨cap, hf, hn⟩ := Option.map_eq_some'.mp h1
      subst hn
      exact Or.inl (isTokenStr_of_find rfl hf)
    rcases oalt_eq_some hc with h1 | hc
    · obtain ⟨cap, hf, hn⟩ := Option.map_eq_some'.mp h1
      subst hn
      exact Or.inl (isTokenStr_of_find rfl hf)
    · obtain ⟨cap, hf, hn⟩ := Option.map_eq_some'.mp hc
      subst hn
      exact Or.inr ⟨l, hl, hf⟩
  · intro conns sas n h
    exact childrenJSON_mem_trim h

/-- Claim C4, witness for the amended statement. -/
theorem c4_witness :
    (isTokenStrCI "x" = true ∨
      ∃ l, l ∈ linesOf "x\x7b1\x7d:" ∧
        (reActiveQuoted.find l = some "x".data ∨ reActiveInstalledLog.find l = some "x".data)) ∧
    (isTokenStr "y" = true ∨
      ∃ l, l ∈ linesOf "y\x7b2\x7d:" ∧ reHeaderQuoted.find l = some "y".data) ∧
    (trimStr "site-a" = "site-a" ∧ "site-a" ≠ "") :=
  ⟨c4_name_shape.1 "x\x7b1\x7d:" "x" (by decide),
   c4_name_shape.2.1 "y\x7b2\x7d:" "y" (by decide),
   c4_name_shape.2.2 "  site-a: TUNNEL, x" "" "site-a" (by decide)⟩

/-- Claim C5: Scenario A — the hash-ESP header line for `tun1` followed by
an SPI-tagged `in` line (1000 bytes, 10 packets) and an SPI-tagged `out`
line (2000 bytes, 20 packets) yields exactly the record
`tun1 ↦ {active, 1000 in-bytes, 10 in-pkts, 2000 out-bytes, 20 out-pkts}`. -/
theorem c5_scenario_a :
    parseStatusToStats
        ("tun1: #3, reqid 1, INSTALLED, TUNNEL, ESP:AES_CBC\nin  0xc1234567,  1000 bytes,   10 packets\nout 0xc7654321,  2000 bytes,   20 packets")
      = [("tun1", { Active := true, InBytes := 1000, OutBytes := 2000,
                    InPkts := 10, OutPkts := 20 })] := by
  decide

/-- Claim C6: the status aggregator evaluates its header patterns strictly
first-match-wins in the precedence order hash-ESP, brace, CHILD_SA, quoted:
after any line the current connection is the first of the four captures in
that order, unchanged if no header matches. -/
theorem c6_header_precedence (st : StatusState) (line : List Char) :
    (statusStep st line).current =
      (oalt ((reHeaderHashESP.find line).map strOfChars)
        (oalt ((reHeaderBrace.find line).map strOfChars)
          (oalt ((reHeaderChildSA.find line).map strOfChars)
            ((reHeaderQuoted.find line).map strOfChars)))).getD st.current := by
  rw [statusStep_current, headerCaptureOf_chain]

/-- Claim C7: a record exists in the status mapping for a name iff some
input line's header capture is that name; in particular counter lines with
no preceding header produce no entries (second conjunct: a text none of
whose lines is a header yields the empty mapping), and a name to which no
counter line is attributed — none follows its headers before the next
header or end of input — keeps all four counters zero, with active set
(third conjunct, via `noCounterFor`). -/
theorem c7_record_iff_header :
    (∀ (text : String) (n : String),
        n ∈ (parseStatusToStats text).map Prod.fst ↔
          ∃ l, l ∈ linesOf text ∧ headerCaptureOf l = some n)
    ∧ (∀ text : String, (∀ l, l ∈ linesOf text → headerCaptureOf l = none) →
        parseStatusToStats text = [])
    ∧ ∀ (text : String) (n : String) (r : ChildStats),
        lookupStat (parseStatusToStats text) n = some r →
        noCounterFor n "" (linesOf text) = true →
        r = { Active := true, InBytes := 0, OutBytes := 0, InPkts := 0, OutPkts := 0 } := by
  refine ⟨statusKeys_iff, ?_, ?_⟩
  · intro text hnone
    cases hres : parseStatusToStats text with
    | nil => rfl
    | cons e rest =>
      exfalso
      have hk : e.1 ∈ (parseStatusToStats text).map Prod.fst := by
        rw [hres]
        simp
      rw [statusKeys_iff] at hk
      obtain ⟨l, hl, hc⟩ := hk
      rw [hnone l hl] at hc
      exact Option.noConfusion hc
  · intro text n r hr hnc
    have hz := foldl_statusStep_zero (linesOf text) { current := "", stats := [] } n
      (Or.inl rfl) hnc
    unfold parseStatusToStats at hr
    rcases hz with hz | hz
    · rw [hz] at hr
      exact Option.noConfusion hr
    · rw [hz] at hr
      injection hr with hr2
      rw [← hr2]
      rfl

/-- Claim C7, witness: a counter-only text produces an empty mapping, and a
header with no following counter lines keeps zero counters. -/
theorem c7_witness :
    ((∀ l, l ∈ linesOf "in: 5 bytes, 6 packets" → headerCaptureOf l = none) ∧
      parseStatusToStats "in: 5 bytes, 6 packets" = []) ∧
    (noCounterFor "x" "" (linesOf "x\x7b1\x7d:") = true ∧
      ({ Active := true, InBytes := 0, OutBytes := 0, InPkts := 0,
         OutPkts := 0 } : ChildStats)
        = { Active := true, InBytes := 0, OutBytes := 0, InPkts := 0, OutPkts := 0 }) :=
  ⟨⟨by decide, c7_record_iff_header.2.1 "in: 5 bytes, 6 packets" (by decide)⟩,
   ⟨by decide, c7_record_iff_header.2.2 "x\x7b1\x7d:" "x"
      { Active := true, InBytes := 0, OutBytes := 0, InPkts := 0, OutPkts := 0 }
      (by decide) (by decide)⟩⟩

/-- Claim C8: a header line capturing `n` makes the record for `n` be the
previous record (or the zero record if `n` was unseen) with `active` set to
true — the four counter fields are untouched. -/
theorem c8_header_preserves_counters (st : StatusState) (line : List Char) (n : String)
    (h : headerCaptureOf line = some n) :
    lookupStat (statusStep st line).stats n =
      some { lookupStatD st.stats n with Active := true } := by
  rw [statusStep_stats_header st line n h, lookupStat_setStat_self]

/-- Claim C8, witness: a recurring header for `a` keeps its counters. -/
theorem c8_witness :
    headerCaptureOf ("a\x7b2\x7d:".data) = some "a" ∧
      lookupStat (statusStep
          { current := "",
            stats := [("a", { Active := true, InBytes := 5, OutBytes := 6,
                              InPkts := 7, OutPkts := 8 })] } ("a\x7b2\x7d:".data)).stats "a" =
        some { lookupStatD [("a", { Active := true, InBytes := 5, OutBytes := 6,
                                    InPkts := 7, OutPkts := 8 })] "a" with Active := true } :=
  ⟨by decide,
   c8_header_preserves_counters
     { current := "",
       stats := [("a", { Active := true, InBytes := 5, OutBytes := 6,
                         InPkts := 7, OutPkts := 8 })] } ("a\x7b2\x7d:".data) "a" (by decide)⟩

/-- Claim C9: the Integer Normalizer (comma stripping then digit-prefix
parsing) returns the value of the longest digit prefix of the stripped
string whenever that value fits below 2^63 (Go wraps on 64-bit overflow),
and maps the spec's four examples as stated. -/
theorem c9_integer_normalizer :
    (∀ s : List Char, specDigitPrefixVal (stripCommas s) 0 < 2 ^ 63 →
        parseInt64 (stripCommas s) = specDigitPrefixVal (stripCommas s) 0)
    ∧ parseInt64 (stripCommas ("1,234,567".data)) = 1234567
    ∧ parseInt64 (stripCommas ("0".data)) = 0
    ∧ parseInt64 (stripCommas ("".data)) = 0
    ∧ parseInt64 (stripCommas ("12abc".data)) = 12 :=
  ⟨fun s h => parseInt64_spec _ h, by decide, by decide, by decide, by decide⟩

/-- Claim C9, witness for the general normalizer statement. -/
theorem c9_witness :
    specDigitPrefixVal (stripCommas ("1,234,567".data)) 0 < 2 ^ 63 ∧
      parseInt64 (stripCommas ("1,234,567".data)) =
        specDigitPrefixVal (stripCommas ("1,234,567".data)) 0 :=
  ⟨by decide, c9_integer_normalizer.1 ("1,234,567".data) (by decide)⟩

/-- Claim C10: every record in the status mapping has `active = true`:
records are only created by header transitions, which set `active`, and
counter updates preserve it. -/
theorem c10_active_always_true (text : String) (n : String) (r : ChildStats)
    (h : lookupStat (parseStatusToStats text) n = some r) : r.Active = true := by
  unfold parseStatusToStats at h
  refine foldl_statusStep_active (linesOf text) { current := "", stats := [] }
    (Or.inl rfl) ?_ n r h
  intro k r2 hkr
  simp [lookupStat] at hkr

/-- Claim C10, witness. -/
theorem c10_witness :
    lookupStat (parseStatusToStats "x\x7b1\x7d:") "x" =
        some { Active := true, InBytes := 0, OutBytes := 0, InPkts := 0, OutPkts := 0 } ∧
      ({ Active := true, InBytes := 0, OutBytes := 0, InPkts := 0,
         OutPkts := 0 } : ChildStats).Active = true :=
  ⟨by decide, c10_active_always_true "x\x7b1\x7d:" "x" _ (by decide)⟩
